import Mathlib

/-!
# Verification of the KeyboardHistory library core

A shallow embedding of the KeyboardHistory TypeScript library
(`src/EventStore.ts`, `src/EventReplay.ts`, `src/EventCapture.ts`,
`src/KeyboardHistory.ts`) together with theorems settling the claims of the
natural-language specification.

Modelling conventions:
* JavaScript numbers are modelled by `JSNum`: a finite rational, `nan`,
  `inf` (+Infinity) or `negInf` (-Infinity), with the IEEE-style comparison
  and subtraction semantics the code relies on (`NaN < 0` is `false`, etc.).
  Host-clock instants (`performance.now()` values) only flow through typed
  arithmetic, so they are modelled directly as rationals.
* Untrusted JavaScript values handed to the validators (`addEvent`,
  `replay`) are modelled by `JSVal`, with `typeof`, truthiness and property
  access (`.key`, `.code`, `.duration`, `.timestamp`) as in JS; a `vObj`
  carries exactly the four properties the code ever reads.
* Methods that mutate `this` and may throw are modelled as functions
  returning `Except String state` (or a pair of the outcome and the post
  state).  In every method of the source, a `throw` happens before any
  mutation of the receiver, so an error outcome leaves the state unchanged;
  the definitions below mirror the source's statement order so that this is
  visible in each branch.
-/

deriving instance DecidableEq for Except

/-- A JavaScript number: a finite rational, `NaN`, `+Infinity` or
`-Infinity`.  (IEEE doubles are idealised as rationals; no claim in scope
depends on binary rounding of the host clock.) -/
inductive JSNum where
  | num (q : ℚ)
  | nan
  | inf
  | negInf
deriving DecidableEq

namespace JSNum

/-- JavaScript `<` on numbers: any comparison involving `NaN` is `false`. -/
def lt : JSNum → JSNum → Bool
  | nan, _ => false
  | _, nan => false
  | num a, num b => decide (a < b)
  | num _, inf => true
  | num _, negInf => false
  | inf, _ => false
  | negInf, negInf => false
  | negInf, _ => true

/-- JavaScript `<=` on numbers: any comparison involving `NaN` is `false`. -/
def le : JSNum → JSNum → Bool
  | nan, _ => false
  | _, nan => false
  | num a, num b => decide (a ≤ b)
  | num _, inf => true
  | num _, negInf => false
  | inf, inf => true
  | inf, _ => false
  | negInf, _ => true

/-- JavaScript subtraction on numbers (`NaN` propagates, `∞ - ∞ = NaN`). -/
def sub : JSNum → JSNum → JSNum
  | nan, _ => nan
  | _, nan => nan
  | num a, num b => num (a - b)
  | num _, inf => negInf
  | num _, negInf => inf
  | inf, inf => nan
  | inf, _ => inf
  | negInf, negInf => nan
  | negInf, _ => negInf

theorem le_of_lt : ∀ a b : JSNum, lt a b = true → le a b = true := by
  intro a b h
  cases a <;> cases b <;> simp_all [lt, le]
  exact h.le

end JSNum

/-- An untrusted JavaScript value, as seen by the validators.  `vObj` is a
non-null object carrying the four `KeyEvent` properties (a missing property
reads as `vUndefined`, as in JS). -/
inductive JSVal where
  | vNull
  | vUndefined
  | vBool (b : Bool)
  | vNum (n : JSNum)
  | vStr (s : String)
  | vObj (key code duration timestamp : JSVal)
deriving DecidableEq

namespace JSVal

/-- JavaScript `typeof`. -/
def jsTypeof : JSVal → String
  | vNull => "object"
  | vUndefined => "undefined"
  | vBool _ => "boolean"
  | vNum _ => "number"
  | vStr _ => "string"
  | vObj _ _ _ _ => "object"

/-- JavaScript truthiness (`!v` is `!truthy v`). -/
def truthy : JSVal → Bool
  | vNull => false
  | vUndefined => false
  | vBool b => b
  | vNum (.num q) => decide (q ≠ 0)
  | vNum .nan => false
  | vNum _ => true
  | vStr s => decide (s ≠ "")
  | vObj _ _ _ _ => true

/-- Property read `v.key` (undefined on non-objects; the validators only
read properties after the object check, or behind a `typeof` guard). -/
def keyF : JSVal → JSVal
  | vObj k _ _ _ => k
  | _ => vUndefined

/-- Property read `v.code`. -/
def codeF : JSVal → JSVal
  | vObj _ c _ _ => c
  | _ => vUndefined

/-- Property read `v.duration`. -/
def durationF : JSVal → JSVal
  | vObj _ _ d _ => d
  | _ => vUndefined

/-- Property read `v.timestamp`. -/
def timestampF : JSVal → JSVal
  | vObj _ _ _ t => t
  | _ => vUndefined

/-- The underlying string of a string value (only used behind a
`typeof v === "string"` guard, where it is exact). -/
def asStr : JSVal → String
  | vStr s => s
  | _ => ""

/-- The underlying number of a number value (only used behind a
`typeof v === "number"` guard, where it is exact). -/
def asNum : JSVal → JSNum
  | vNum n => n
  | _ => .nan

end JSVal

/-! ## Event Store (`src/EventStore.ts`) -/

/-- The in-memory store: the `events` list and the `maxEvents` capacity
fixed at construction (`config?.maxEvents ?? 10000`). -/
structure EventStore where
  events : List JSVal
  maxEvents : ℕ
deriving DecidableEq

/-- `new EventStore({maxEvents: n})`. -/
def mkEventStore (n : ℕ) : EventStore := ⟨[], n⟩

namespace EventStore

/-- `EventStore.validateEvent` (private method): the exact guard chain of
the source, with the source's error messages. -/
def validateEvent (event : JSVal) : Except String Unit :=
  if (!event.truthy || event.jsTypeof != "object") then
    .error "Event must be a valid object"
  else if (event.keyF.jsTypeof != "string" || event.keyF.asStr.length == 0) then
    .error "Event key must be a non-empty string"
  else if (event.codeF.jsTypeof != "string" || event.codeF.asStr.length == 0) then
    .error "Event code must be a non-empty string"
  else if (event.durationF.jsTypeof != "number"
      || JSNum.lt event.durationF.asNum (.num 0)) then
    .error "Event duration must be a non-negative number"
  else if (event.timestampF.jsTypeof != "number"
      || JSNum.le event.timestampF.asNum (.num 0)) then
    .error "Event timestamp must be a positive number"
  else
    .ok ()

/-- `EventStore.addEvent`: validate, push at the tail, then `shift()` the
head if the length exceeds `maxEvents`.  The validation throw happens
before the push, so an error leaves the store unchanged. -/
def addEvent (s : EventStore) (e : JSVal) : Except String EventStore :=
  match validateEvent e with
  | .error m => .error m
  | .ok () =>
    let events := s.events ++ [e]
    if events.length > s.maxEvents then
      .ok { s with events := events.tail }
    else
      .ok { s with events := events }

/-- `EventStore.getAllEvents` (the returned array is a fresh copy in the
source; copies are equal as lists). -/
def getAllEvents (s : EventStore) : List JSVal := s.events

/-- `EventStore.getEventCount`. -/
def getEventCount (s : EventStore) : ℕ := s.events.length

/-- `EventStore.clear`. -/
def clear (s : EventStore) : EventStore := { s with events := [] }

/-- Whether `addEvent` accepts `e` (it throws exactly when
`validateEvent` throws). -/
def accepts (e : JSVal) : Bool :=
  match validateEvent e with
  | .ok _ => true
  | .error _ => false

/-- Running `addEvent` and catching the validation error: a failed insert
leaves the store unchanged (the source throws before mutating). -/
def addEventCaught (s : EventStore) (e : JSVal) : EventStore :=
  match s.addEvent e with
  | .ok s' => s'
  | .error _ => s

/-- A sequence of `addEvent` calls, failed inserts leaving the store
unchanged. -/
def addAll (s : EventStore) (es : List JSVal) : EventStore :=
  es.foldl addEventCaught s

end EventStore

/-- The last `n` elements of a list, in order (what survives repeated
head-eviction at capacity `n`). -/
def lastN (n : ℕ) (l : List α) : List α := (l.reverse.take n).reverse

theorem lastN_length (n : ℕ) (l : List α) : (lastN n l).length = min n l.length := by
  simp [lastN]

theorem lastN_of_le (n : ℕ) (l : List α) (h : l.length ≤ n) : lastN n l = l := by
  simp [lastN, List.take_of_length_le, h, List.take_of_length_le (by simpa using h)]

theorem lastN_append_lastN (n : ℕ) (A B : List α) :
    lastN n (lastN n A ++ B) = lastN n (A ++ B) := by
  unfold lastN
  rw [List.reverse_append, List.reverse_reverse, List.reverse_append]
  rw [List.take_append_eq_append_take, List.take_append_eq_append_take]
  rw [List.take_take, Nat.min_eq_left (Nat.sub_le _ _)]

theorem tail_eq_lastN (l : List α) : l.tail = lastN (l.length - 1) l := by
  cases l with
  | nil => simp [lastN]
  | cons a xs =>
    simp only [List.tail_cons, lastN, List.reverse_cons, List.length_cons,
      Nat.add_sub_cancel]
    rw [List.take_append_eq_append_take]
    simp [List.take_of_length_le]

/-- JavaScript `String.prototype.trim`: drop whitespace from both ends.
(Defined over the character list; on the ASCII whitespace the events in
scope contain, it agrees with the JS whitespace set.) -/
def jsTrim (s : String) : String :=
  ⟨((s.data.dropWhile Char.isWhitespace).reverse.dropWhile Char.isWhitespace).reverse⟩

/-! ## Event Replay (`src/EventReplay.ts`) -/

/-- The `ReplaySession` record of `src/types.ts`.  Timer handles
(`ReturnType<typeof setTimeout>`) are opaque; they are modelled as naturals
supplied by the host when a timer is created. -/
structure ReplaySession where
  isReplaying : Bool
  currentIndex : ℕ
  startTime : Option ℚ
  timeoutIds : List ℕ
deriving DecidableEq

/-- The idle session shape the constructor, `stopReplay` and natural
completion all produce. -/
def ReplaySession.idle : ReplaySession :=
  { isReplaying := false, currentIndex := 0, startTime := none, timeoutIds := [] }

/-- The `EventReplay` object: its session and the stored default
sequence. -/
structure EventReplay where
  session : ReplaySession
  storedEvents : List JSVal
deriving DecidableEq

/-- `new EventReplay(config)`. -/
def mkEventReplay : EventReplay := ⟨ReplaySession.idle, []⟩

/-- The argument of `replay(events?)`, split by the two guards the source
applies to it: `events === undefined`, and `Array.isArray(events)`. -/
inductive ReplayArg where
  | undefinedArg
  | nonArrayArg (v : JSVal)
  | arrayArg (es : List JSVal)

namespace EventReplay

/-- One iteration of the loop body of `EventReplay.validateEvents` for the
element at index `i`: the exact guard chain and error messages of the
source (the two trim-emptiness checks come after all four type checks, as
in the source). -/
def validateEventAt (i : ℕ) (event : JSVal) : Except String Unit :=
  if (!event.truthy || event.jsTypeof != "object") then
    .error ("Event at index " ++ toString i ++ " is not a valid object")
  else if (event.keyF.jsTypeof != "string") then
    .error ("Event at index " ++ toString i ++
      " has invalid 'key' property: expected string, got " ++ event.keyF.jsTypeof)
  else if (event.codeF.jsTypeof != "string") then
    .error ("Event at index " ++ toString i ++
      " has invalid 'code' property: expected string, got " ++ event.codeF.jsTypeof)
  else if (event.durationF.jsTypeof != "number"
      || JSNum.lt event.durationF.asNum (.num 0)) then
    .error ("Event at index " ++ toString i ++
      " has invalid 'duration' property: expected non-negative number, got "
      ++ event.durationF.jsTypeof)
  else if (event.timestampF.jsTypeof != "number"
      || JSNum.lt event.timestampF.asNum (.num 0)) then
    .error ("Event at index " ++ toString i ++
      " has invalid 'timestamp' property: expected non-negative number, got "
      ++ event.timestampF.jsTypeof)
  else if (jsTrim event.keyF.asStr == "") then
    .error ("Event at index " ++ toString i ++ " has empty 'key' property")
  else if (jsTrim event.codeF.asStr == "") then
    .error ("Event at index " ++ toString i ++ " has empty 'code' property")
  else
    .ok ()

/-- The `for (let i = 0; ...)` loop of `EventReplay.validateEvents`,
written as recursion over the yet-unchecked suffix with the running
index. -/
def validateEventsAux : ℕ → List JSVal → Except String Unit
  | _, [] => .ok ()
  | i, e :: rest =>
    match validateEventAt i e with
    | .error m => .error m
    | .ok () => validateEventsAux (i + 1) rest

/-- `EventReplay.validateEvents`: throws on the first invalid element. -/
def validateEvents (events : List JSVal) : Except String Unit :=
  validateEventsAux 0 events

/-- The delay computed by `EventReplay.scheduleNextEvent` before emitting
the event at `eventIndex` (`delay` stays `0` when `startTime` is null; for
index 0 it is the event's own timestamp; otherwise the gap to the previous
event's timestamp). -/
def delayAt (startTime : Option ℚ) (events : List JSVal) (eventIndex : ℕ) : JSNum :=
  match startTime with
  | none => .num 0
  | some _ =>
    if eventIndex == 0 then
      ((events.getD 0 .vUndefined).timestampF).asNum
    else
      JSNum.sub ((events.getD eventIndex .vUndefined).timestampF).asNum
        ((events.getD (eventIndex - 1) .vUndefined).timestampF).asNum

/-- The emission trace of the timer chain started by
`scheduleNextEvent(events, i)` when no `stopReplay` intervenes and every
timer fires: the delay passed to `setTimeout` and the event dispatched, for
each index from `i` up to the end of the array.  (`startTime` is the
session's `startTime` at scheduling time; after a successful `replay` call
it is non-null and never changes during the run.) -/
def scheduleTrace (startTime : Option ℚ) (events : List JSVal) (i : ℕ) :
    List (JSNum × JSVal) :=
  if h : i < events.length then
    (delayAt startTime events i, events.get ⟨i, h⟩) :: scheduleTrace startTime events (i + 1)
  else
    []
termination_by events.length - i

/-- `EventReplay.replay(events?)`, as outcome (`ok` or the thrown message)
paired with the post-call state.  Mirrors the source statement by
statement: every `throw` happens before any assignment to
`this.replaySession`, so every error branch carries the unchanged state.
`now` is the `performance.now()` value read on success and `tid` the handle
of the first timer scheduled by `scheduleNextEvent(events, 0)`. -/
def replay (st : EventReplay) (arg : ReplayArg) (now : ℚ) (tid : ℕ) :
    Except String Unit × EventReplay :=
  if st.session.isReplaying then
    (.error "Replay is already in progress. Call stopReplay() first.", st)
  else
    match arg with
    | .nonArrayArg _ => (.error "Events must be an array of KeyEvent objects", st)
    | .arrayArg es =>
      match validateEvents es with
      | .error m => (.error m, st)
      | .ok () =>
        if es.isEmpty then (.ok (), st)
        else
          (.ok (), { st with session :=
            { isReplaying := true, currentIndex := 0, startTime := some now,
              timeoutIds := [tid] } })
    | .undefinedArg =>
      match validateEvents st.storedEvents with
      | .error m => (.error m, st)
      | .ok () =>
        if st.storedEvents.isEmpty then (.ok (), st)
        else
          (.ok (), { st with session :=
            { isReplaying := true, currentIndex := 0, startTime := some now,
              timeoutIds := [tid] } })

/-- `EventReplay.stopReplay`: a no-op when not replaying, otherwise cancel
every pending timer and reset the session.  The source never throws here,
so the model is a total function. -/
def stopReplay (st : EventReplay) : EventReplay :=
  if !st.session.isReplaying then st
  else { st with session := ReplaySession.idle }

/-- `EventReplay.isReplaying`. -/
def isReplayingQ (st : EventReplay) : Bool := st.session.isReplaying

/-- `EventReplay.setStoredEvents` (`events || []`: a null/undefined
argument is replaced by the empty array; with a list argument it is the
list itself). -/
def setStoredEvents (st : EventReplay) (events : List JSVal) : EventReplay :=
  { st with storedEvents := events }

/-- Session well-formedness: whenever the session is not replaying, it has
the idle shape.  This holds at construction and is preserved by every
operation (the only writers of `isReplaying := false` — the constructor,
`stopReplay` and the natural-completion branch of `scheduleNextEvent` —
all reset the whole record). -/
def SessionWF (st : EventReplay) : Prop :=
  st.session.isReplaying = false → st.session = ReplaySession.idle

theorem sessionWF_mk : SessionWF mkEventReplay := fun _ => rfl

theorem sessionWF_stopReplay (st : EventReplay) (hwf : SessionWF st) :
    SessionWF (stopReplay st) := by
  intro h
  unfold stopReplay at *
  by_cases hr : st.session.isReplaying <;> simp_all [SessionWF]

theorem sessionWF_replay (st : EventReplay) (arg : ReplayArg) (now : ℚ) (tid : ℕ)
    (hwf : SessionWF st) : SessionWF (replay st arg now tid).2 := by
  unfold replay
  by_cases hr : st.session.isReplaying
  · simpa [hr] using hwf
  · cases arg with
    | nonArrayArg v => simpa [hr] using hwf
    | arrayArg es =>
      cases hv : validateEvents es with
      | error m => simpa [hr, hv] using hwf
      | ok u =>
        cases u
        by_cases he : es.isEmpty <;> simp_all [SessionWF, hr, hv]
    | undefinedArg =>
      cases hv : validateEvents st.storedEvents with
      | error m => simpa [hr, hv] using hwf
      | ok u =>
        cases u
        by_cases he : st.storedEvents.isEmpty <;> simp_all [SessionWF, hr, hv]

end EventReplay

/-! ## Event Capture (`src/EventCapture.ts`) -/

/-- `EventCapture.normalizeKeyIdentifier`: the fixed code→label table, then
the fallback rule (`key` if truthy, not `'Unidentified'` and non-empty,
else `code`). -/
def normalizeKeyIdentifier (key code : String) : String :=
  if code == "Space" then " "
  else if code == "Enter" then "Enter"
  else if code == "Tab" then "Tab"
  else if code == "Escape" then "Escape"
  else if code == "Backspace" then "Backspace"
  else if code == "Delete" then "Delete"
  else if (key != "" && key != "Unidentified") then key
  else code

/-- JavaScript `Math.round`: nearest integer, ties toward `+∞`. -/
def jsMathRound (x : ℚ) : ℤ := ⌊x + 1 / 2⌋

/-- `EventCapture.roundToPrecision`:
`Math.round(value * 10^precision) / 10^precision`. -/
def roundToPrecision (value : ℚ) (precision : ℕ) : ℚ :=
  let factor : ℚ := 10 ^ precision
  (jsMathRound (value * factor) : ℚ) / factor

/-- Rounding to `p` decimal digits with ties away from zero on the scaled
value — the rounding rule as the specification words it (for comparison
with `roundToPrecision`, which embeds the source). -/
def roundToPrecisionSpec (value : ℚ) (precision : ℕ) : ℚ :=
  let factor : ℚ := 10 ^ precision
  let scaled := value * factor
  ((if 0 ≤ scaled then ⌊scaled + 1 / 2⌋ else -⌊-scaled + 1 / 2⌋ : ℤ) : ℚ) / factor

/-- A finalized `KeyEvent` as produced by capture (typed fields, per
`src/types.ts`). -/
structure CapturedEvent where
  key : String
  duration : ℚ
  timestamp : ℚ
  code : String
deriving DecidableEq

/-- The mutable state of `EventCapture`.  `keyDownTimes` is the
`Map<string, number>` as an insertion-ordered association list; the
`onEventCallback` presence coincides with `isCapturing` in every reachable
state (both are set in `startCapture` and cleared in `stopCapture`), so a
single flag models both guards. -/
structure EventCaptureState where
  isCapturing : Bool
  keyDownTimes : List (String × ℚ)
  captureRepeats : Bool
  timestampPrecision : ℕ
  sessionStartTime : ℚ
deriving DecidableEq

/-- `Map.get`. -/
def mapGet (m : List (String × ℚ)) (k : String) : Option ℚ :=
  (m.find? (fun p => p.1 == k)).map (fun p => p.2)

/-- `Map.set`: update in place if present, else append (insertion
order). -/
def mapSet (m : List (String × ℚ)) (k : String) (v : ℚ) : List (String × ℚ) :=
  if (m.find? (fun p => p.1 == k)).isSome then
    m.map (fun p => if p.1 == k then (k, v) else p)
  else
    m ++ [(k, v)]

/-- `Map.delete`. -/
def mapDelete (m : List (String × ℚ)) (k : String) : List (String × ℚ) :=
  m.filter (fun p => p.1 != k)

namespace EventCapture

/-- `new EventCapture(config)` (defaults: `captureRepeats` true,
`timestampPrecision` 3). -/
def mk' (captureRepeats : Bool) (timestampPrecision : ℕ) : EventCaptureState :=
  { isCapturing := false, keyDownTimes := [], captureRepeats,
    timestampPrecision, sessionStartTime := 0 }

/-- `EventCapture.startCapture`: no-op when already capturing; otherwise
record the session start instant, clear the pairing map and begin
listening.  (The DOM listener registration and callback storage are the
host-facing effects, outside the state model.) -/
def startCapture (c : EventCaptureState) (sessionStartTime : ℚ) : EventCaptureState :=
  if c.isCapturing then c
  else { c with isCapturing := true, sessionStartTime, keyDownTimes := [] }

/-- `EventCapture.stopCapture`: no-op when not capturing; otherwise stop
listening and clear the pairing map. -/
def stopCapture (c : EventCaptureState) : EventCaptureState :=
  if !c.isCapturing then c
  else { c with isCapturing := false, keyDownTimes := [] }

/-- `EventCapture.handleKeyDown`: record the down instant under the
`keyIdentifier-code` map id (skipping repeats when configured to). -/
def handleKeyDown (c : EventCaptureState) (key code : String) (isRepeat : Bool)
    (now : ℚ) : EventCaptureState :=
  if !c.isCapturing then c
  else
    let keyIdentifier := normalizeKeyIdentifier key code
    if (!c.captureRepeats && isRepeat) then c
    else
      let keyMapId := keyIdentifier ++ "-" ++ code
      if ((mapGet c.keyDownTimes keyMapId).isNone || c.captureRepeats) then
        { c with keyDownTimes := mapSet c.keyDownTimes keyMapId now }
      else c

/-- `EventCapture.handleKeyUp`: look up the matching down instant; if
present, emit the finalized event with rounded duration and
session-relative timestamp and drop the pairing entry.  Returns the new
state and the event passed to the callback (if any). -/
def handleKeyUp (c : EventCaptureState) (key code : String) (now : ℚ) :
    EventCaptureState × Option CapturedEvent :=
  if !c.isCapturing then (c, none)
  else
    let keyIdentifier := normalizeKeyIdentifier key code
    let keyMapId := keyIdentifier ++ "-" ++ code
    match mapGet c.keyDownTimes keyMapId with
    | none => (c, none)
    | some keyDownTime =>
      let duration := roundToPrecision (now - keyDownTime) c.timestampPrecision
      let sessionRelativeTimestamp :=
        roundToPrecision (keyDownTime - c.sessionStartTime) c.timestampPrecision
      ({ c with keyDownTimes := mapDelete c.keyDownTimes keyMapId },
        some { key := keyIdentifier, duration, timestamp := sessionRelativeTimestamp,
               code })

end EventCapture

/-! ## Session Coordinator (`src/KeyboardHistory.ts`) -/

/-- The `RecordingSession` record of `src/types.ts`. -/
structure RecordingSession where
  isRecording : Bool
  startTime : Option ℚ
  events : List JSVal
deriving DecidableEq

/-- The `KeyboardHistory` coordinator: one store, one capture, one replay
instance and the recording session. -/
structure KeyboardHistory where
  eventStore : EventStore
  eventCapture : EventCaptureState
  eventReplay : EventReplay
  session : RecordingSession
deriving DecidableEq

namespace KeyboardHistory

/-- `KeyboardHistory.start`: no-op when already recording; otherwise clear
the store, mark the session as recording with the current instant, and
start capture (the capture callback routes each finalized event into the
store and the session record). -/
def start (kh : KeyboardHistory) (now : ℚ) : KeyboardHistory :=
  if kh.session.isRecording then kh
  else
    { kh with
      eventStore := kh.eventStore.clear,
      session := { isRecording := true, startTime := some now, events := [] },
      eventCapture := EventCapture.startCapture kh.eventCapture now }

/-- `KeyboardHistory.stop`: no-op when not recording; otherwise stop
capture and mark the session idle.  The store is not touched. -/
def stop (kh : KeyboardHistory) : KeyboardHistory :=
  if !kh.session.isRecording then kh
  else
    { kh with
      eventCapture := EventCapture.stopCapture kh.eventCapture,
      session := { kh.session with isRecording := false, startTime := none } }

/-- `KeyboardHistory.getRecordedKeys`: the store's current contents. -/
def getRecordedKeys (kh : KeyboardHistory) : List JSVal :=
  kh.eventStore.getAllEvents

/-- `KeyboardHistory.isRecording`. -/
def isRecordingQ (kh : KeyboardHistory) : Bool := kh.session.isRecording

end KeyboardHistory

/-! ## Claim theorems -/

/-- A syntactically well-typed event whose `duration` is `NaN` (the shape
of `{key:'a', code:'KeyA', duration:NaN, timestamp:1000}`). -/
def nanDurationEvent : JSVal :=
  .vObj (.vStr "a") (.vStr "KeyA") (.vNum .nan) (.vNum (.num 1000))

/-- C4 (divergence evaluation): the claim and the repository's own unit
tests say `addEvent` throws `'Event duration must be a non-negative
number'` on a `NaN` duration, but `validateEvent`'s guard
`typeof duration !== 'number' || duration < 0` is false for `NaN`
(`NaN < 0` is `false` in JS), so the event is accepted and appended. -/
theorem addEvent_accepts_nan_duration :
    EventStore.validateEvent nanDurationEvent = .ok () ∧
    EventStore.addEvent (mkEventStore 10000) nanDurationEvent =
      .ok { events := [nanDurationEvent], maxEvents := 10000 } := by
  constructor <;> rfl

/-- C6: calling `replay` (with any argument shape, or none) while a replay
is active throws `ReplayInProgressError` and returns with the in-progress
session — `isReplaying`, `currentIndex`, `startTime`, `timeoutIds` — and
the stored default sequence exactly as before the call; the guard is the
first statement of the method, before any mutation. -/
theorem replay_while_active (st : EventReplay) (arg : ReplayArg) (now : ℚ) (tid : ℕ)
    (h : st.session.isReplaying = true) :
    EventReplay.replay st arg now tid =
      (.error "Replay is already in progress. Call stopReplay() first.", st) := by
  unfold EventReplay.replay
  simp [h]

theorem replay_while_active_witness :
    (⟨⟨true, 2, some 7, [5]⟩, []⟩ : EventReplay).session.isReplaying = true ∧
    EventReplay.replay ⟨⟨true, 2, some 7, [5]⟩, []⟩ .undefinedArg 0 1 =
      (.error "Replay is already in progress. Call stopReplay() first.",
        ⟨⟨true, 2, some 7, [5]⟩, []⟩) :=
  ⟨rfl, replay_while_active _ _ _ _ rfl⟩

/-- C8: `stopReplay` is a total function (the source path has no throw);
when no replay is active it returns the state unchanged; and after any
call — including a call on a freshly constructed instance and a second
consecutive call — the session has the idle shape (`isReplaying = false`,
`currentIndex = 0`, `startTime = null`, no pending handles).  The
`SessionWF` hypothesis is the reachable-state invariant proved for the
constructor and each operation in `sessionWF_mk`, `sessionWF_replay` and
`sessionWF_stopReplay`. -/
theorem stopReplay_idempotent (st : EventReplay) (hwf : EventReplay.SessionWF st) :
    (st.session.isReplaying = false → EventReplay.stopReplay st = st) ∧
    (EventReplay.stopReplay st).session = ReplaySession.idle ∧
    (EventReplay.stopReplay (EventReplay.stopReplay st)).session = ReplaySession.idle ∧
    EventReplay.stopReplay mkEventReplay = mkEventReplay := by
  by_cases h : st.session.isReplaying
  · have e1 : EventReplay.stopReplay st = { st with session := ReplaySession.idle } := by
      simp [EventReplay.stopReplay, h]
    refine ⟨fun hc => by simp [hc] at h, by rw [e1], ?_, rfl⟩
    rw [e1]
    simp [EventReplay.stopReplay, ReplaySession.idle]
  · have h' : st.session.isReplaying = false := by simpa using h
    have hidle := hwf h'
    have e1 : EventReplay.stopReplay st = st := by
      simp [EventReplay.stopReplay, h']
    exact ⟨fun _ => e1, by rw [e1]; exact hidle, by rw [e1, e1]; exact hidle, rfl⟩

theorem stopReplay_idempotent_witness :
    EventReplay.SessionWF ⟨⟨true, 2, some 7, [5, 6]⟩, []⟩ ∧
    ((⟨⟨true, 2, some 7, [5, 6]⟩, []⟩ : EventReplay).session.isReplaying = false →
        EventReplay.stopReplay ⟨⟨true, 2, some 7, [5, 6]⟩, []⟩ =
          ⟨⟨true, 2, some 7, [5, 6]⟩, []⟩) ∧
    (EventReplay.stopReplay ⟨⟨true, 2, some 7, [5, 6]⟩, []⟩).session =
      ReplaySession.idle ∧
    (EventReplay.stopReplay
        (EventReplay.stopReplay ⟨⟨true, 2, some 7, [5, 6]⟩, []⟩)).session =
      ReplaySession.idle ∧
    EventReplay.stopReplay mkEventReplay = mkEventReplay :=
  ⟨fun h => by simp at h, stopReplay_idempotent _ (fun h => by simp at h)⟩

/-- C9: `start()` while not recording clears the event store before
capture begins, so immediately after the call `getRecordedKeys()` is the
empty array, whatever earlier sessions stored. -/
theorem start_clears_store (kh : KeyboardHistory) (now : ℚ)
    (h : kh.session.isRecording = false) :
    (KeyboardHistory.start kh now).getRecordedKeys = [] := by
  simp [KeyboardHistory.start, KeyboardHistory.getRecordedKeys, h,
    EventStore.clear, EventStore.getAllEvents]

theorem start_clears_store_witness :
    (⟨⟨[nanDurationEvent, .vNull], 7⟩, EventCapture.mk' true 3, mkEventReplay,
        ⟨false, none, [.vNull]⟩⟩ : KeyboardHistory).session.isRecording = false ∧
    (KeyboardHistory.start
        ⟨⟨[nanDurationEvent, .vNull], 7⟩, EventCapture.mk' true 3, mkEventReplay,
          ⟨false, none, [.vNull]⟩⟩ 4).getRecordedKeys = [] :=
  ⟨rfl, start_clears_store _ 4 rfl⟩

/-- C10: `stop()` never touches the store: `getRecordedKeys()` is the same
sequence after the call as before it, the store and the session's recorded
event list are unchanged, and the replay component is untouched — only the
recording flag, the session start time and the capture listener state
change. -/
theorem stop_preserves_store (kh : KeyboardHistory) :
    (KeyboardHistory.stop kh).getRecordedKeys = kh.getRecordedKeys ∧
    (KeyboardHistory.stop kh).eventStore = kh.eventStore ∧
    (KeyboardHistory.stop kh).session.events = kh.session.events ∧
    (KeyboardHistory.stop kh).eventReplay = kh.eventReplay := by
  unfold KeyboardHistory.stop
  by_cases h : kh.session.isRecording <;>
    simp [h, KeyboardHistory.getRecordedKeys]

theorem addEventCaught_rejects (s : EventStore) (e : JSVal)
    (hacc : EventStore.accepts e = false) : EventStore.addEventCaught s e = s := by
  unfold EventStore.accepts at hacc
  unfold EventStore.addEventCaught EventStore.addEvent
  cases hv : EventStore.validateEvent e with
  | error m => rfl
  | ok u => rw [hv] at hacc; simp at hacc

theorem addEventCaught_accepts (s : EventStore) (e : JSVal)
    (hacc : EventStore.accepts e = true) (hlen : s.events.length ≤ s.maxEvents) :
    EventStore.addEventCaught s e =
      ⟨lastN s.maxEvents (s.events ++ [e]), s.maxEvents⟩ := by
  unfold EventStore.accepts at hacc
  cases hv : EventStore.validateEvent e with
  | error m => rw [hv] at hacc; simp at hacc
  | ok u =>
    cases u
    unfold EventStore.addEventCaught EventStore.addEvent
    rw [hv]
    simp only
    by_cases hgt : (s.events ++ [e]).length > s.maxEvents
    · have hEl : s.events.length = s.maxEvents := by
        have := hgt
        simp only [List.length_append, List.length_singleton] at this
        omega
      simp only [hgt, if_pos]
      have ht := tail_eq_lastN (s.events ++ [e])
      have hN : (s.events ++ [e]).length - 1 = s.maxEvents := by
        simp [List.length_append, hEl]
      rw [hN] at ht
      rw [ht]
    · simp only [hgt, if_neg, not_false_iff]
      have hle : (s.events ++ [e]).length ≤ s.maxEvents := by omega
      rw [lastN_of_le _ _ hle]

theorem addAll_events (es : List JSVal) :
    ∀ s : EventStore, s.events.length ≤ s.maxEvents →
      EventStore.addAll s es =
        ⟨lastN s.maxEvents (s.events ++ es.filter EventStore.accepts), s.maxEvents⟩ := by
  induction es with
  | nil =>
    intro s hlen
    simp [EventStore.addAll, lastN_of_le _ _ hlen]
  | cons e rest ih =>
    intro s hlen
    have hfold : EventStore.addAll s (e :: rest) =
        EventStore.addAll (EventStore.addEventCaught s e) rest := rfl
    by_cases hacc : EventStore.accepts e
    · have hstep := addEventCaught_accepts s e hacc hlen
      have hlen' : (lastN s.maxEvents (s.events ++ [e])).length ≤ s.maxEvents := by
        rw [lastN_length]; omega
      rw [hfold, hstep, ih _ hlen']
      simp only
      rw [lastN_append_lastN, List.append_assoc]
      simp [hacc]
    · have hacc' : EventStore.accepts e = false := by simpa using hacc
      rw [hfold, addEventCaught_rejects s e hacc', ih s hlen]
      simp [hacc']

/-- C1: from a fresh store of any capacity `N ≥ 0`, after any sequence of
`addEvent` calls (failed inserts leave the store unchanged) the count never
exceeds `N` — after every prefix of the sequence too — and the retained
events are exactly the most recent `min(insertedCount, N)` successfully
inserted events, oldest first; with `N = 0` every insert is immediately
evicted and the count stays `0`. -/
theorem store_capacity_invariant (N : ℕ) (es : List JSVal) :
    ((mkEventStore N).addAll es).getEventCount ≤ N ∧
    ((mkEventStore N).addAll es).getAllEvents =
      lastN N (es.filter EventStore.accepts) ∧
    ((mkEventStore N).addAll es).getEventCount =
      min (es.filter EventStore.accepts).length N ∧
    (∀ p q : List JSVal, es = p ++ q →
      ((mkEventStore N).addAll p).getEventCount ≤ N) ∧
    (N = 0 → ((mkEventStore N).addAll es).getEventCount = 0) := by
  have hmain : ∀ l : List JSVal, EventStore.addAll (mkEventStore N) l =
      ⟨lastN N (l.filter EventStore.accepts), N⟩ := by
    intro l
    have h := addAll_events l (mkEventStore N) (by simp [mkEventStore])
    simpa [mkEventStore] using h
  have hcount : ∀ l : List JSVal,
      ((mkEventStore N).addAll l).getEventCount =
        min (l.filter EventStore.accepts).length N := by
    intro l
    rw [hmain l]
    simp [EventStore.getEventCount, lastN_length, Nat.min_comm]
  refine ⟨?_, ?_, hcount es, ?_, ?_⟩
  · rw [hcount es]; omega
  · rw [hmain es]; rfl
  · intro p q _
    rw [hcount p]; omega
  · intro h0
    rw [hcount es, h0]; omega

/-- The spec's concrete store scenario: `{key:'a',code:'KeyA',duration:10,timestamp:5}`. -/
def sampleEventA : JSVal :=
  .vObj (.vStr "a") (.vStr "KeyA") (.vNum (.num 10)) (.vNum (.num 5))

/-- `{key:'b',code:'KeyB',duration:20,timestamp:15}`. -/
def sampleEventB : JSVal :=
  .vObj (.vStr "b") (.vStr "KeyB") (.vNum (.num 20)) (.vNum (.num 15))

/-- `{key:'c',code:'KeyC',duration:30,timestamp:25}`. -/
def sampleEventC : JSVal :=
  .vObj (.vStr "c") (.vStr "KeyC") (.vNum (.num 30)) (.vNum (.num 25))

theorem store_capacity_invariant_witness :
    ((mkEventStore 2).addAll [sampleEventA, sampleEventB, sampleEventC]).getAllEvents =
      [sampleEventB, sampleEventC] ∧
    ((mkEventStore 2).addAll [sampleEventA, sampleEventB, sampleEventC]).getEventCount ≤ 2 :=
  ⟨by decide, (store_capacity_invariant 2 [sampleEventA, sampleEventB, sampleEventC]).1⟩

theorem scheduleTrace_map_snd (startTime : Option ℚ) (events : List JSVal) :
    ∀ i, (EventReplay.scheduleTrace startTime events i).map Prod.snd =
      events.drop i := by
  have key : ∀ n i, events.length - i = n →
      (EventReplay.scheduleTrace startTime events i).map Prod.snd = events.drop i := by
    intro n
    induction n with
    | zero =>
      intro i h
      have hi : ¬ i < events.length := by omega
      have hd : events.drop i = [] := List.drop_eq_nil_of_le (by omega)
      rw [EventReplay.scheduleTrace]
      simp [hi, hd]
    | succ n ih =>
      intro i h
      have hi : i < events.length := by omega
      rw [EventReplay.scheduleTrace]
      simp only [hi, dif_pos, List.map_cons]
      rw [ih (i + 1) (by omega), List.drop_eq_getElem_cons hi]
      rfl
  exact fun i => key (events.length - i) i rfl

theorem scheduleTrace_get? (startTime : Option ℚ) (events : List JSVal) :
    ∀ i j, (EventReplay.scheduleTrace startTime events i).get? j =
      if h : i + j < events.length then
        some (EventReplay.delayAt startTime events (i + j), events.get ⟨i + j, h⟩)
      else none := by
  have key : ∀ n i j, events.length - i = n →
      (EventReplay.scheduleTrace startTime events i).get? j =
        if h : i + j < events.length then
          some (EventReplay.delayAt startTime events (i + j), events.get ⟨i + j, h⟩)
        else none := by
    intro n
    induction n with
    | zero =>
      intro i j h
      have hi : ¬ i < events.length := by omega
      have hij : ¬ i + j < events.length := by omega
      rw [EventReplay.scheduleTrace]
      simp [hi, hij]
    | succ n ih =>
      intro i j h
      have hi : i < events.length := by omega
      rw [EventReplay.scheduleTrace]
      simp only [hi, dif_pos]
      cases j with
      | zero =>
        simp [hi]
      | succ j' =>
        have := ih (i + 1) j' (by omega)
        simp only [List.get?_cons_succ, this]
        by_cases hij : i + 1 + j' < events.length
        · have hij' : i + (j' + 1) < events.length := by omega
          simp only [hij, dif_pos, hij', dif_pos]
          have harith : i + 1 + j' = i + (j' + 1) := by omega
          simp [harith]
        · have hij' : ¬ i + (j' + 1) < events.length := by omega
          simp [hij, hij']
  exact fun i j => key (events.length - i) i j rfl

/-- C2: in the implemented per-gap scheduling mode, for a validated
non-empty event array the timer chain started by a successful `replay`
(session `startTime` non-null) emits the events in index order
`0..length-1`, and the delay scheduled before emitting event `i` is the
event's own `timestamp` for `i = 0` and
`events[i].timestamp - events[i-1].timestamp` for `i > 0` (JS number
subtraction). -/
theorem replay_delay_schedule (es : List JSVal) (t : ℚ)
    (_hval : EventReplay.validateEvents es = .ok ()) (_hne : es ≠ []) :
    (EventReplay.scheduleTrace (some t) es 0).map Prod.snd = es ∧
    (EventReplay.scheduleTrace (some t) es 0).length = es.length ∧
    (∀ i, i < es.length →
      (EventReplay.scheduleTrace (some t) es 0).get? i =
        some ((if i = 0 then ((es.getD 0 .vUndefined).timestampF).asNum
               else JSNum.sub ((es.getD i .vUndefined).timestampF).asNum
                 ((es.getD (i - 1) .vUndefined).timestampF).asNum),
              es.getD i .vUndefined)) := by
  refine ⟨by simpa using scheduleTrace_map_snd (some t) es 0, ?_, ?_⟩
  · have h := scheduleTrace_map_snd (some t) es 0
    have := congrArg List.length h
    simpa using this
  · intro i hi
    have h := scheduleTrace_get? (some t) es 0 i
    simp only [Nat.zero_add, hi, dif_pos] at h
    have hd : es.getD i .vUndefined = es.get ⟨i, hi⟩ := by
      rw [List.getD_eq_getElem?_getD, List.getElem?_eq_getElem hi]
      rfl
    rw [h, hd]
    congr 1
    unfold EventReplay.delayAt
    by_cases h0 : i = 0
    · subst h0
      simp [hd]
    · have hb : (i == 0) = false := by simpa using h0
      simp [hb, h0, List.getElem?_eq_getElem hi]

theorem replay_delay_schedule_witness :
    EventReplay.validateEvents [sampleEventA, sampleEventB] = .ok () ∧
    ([sampleEventA, sampleEventB] : List JSVal) ≠ [] ∧
    ((EventReplay.scheduleTrace (some 0) [sampleEventA, sampleEventB] 0).map Prod.snd =
        [sampleEventA, sampleEventB] ∧
      (EventReplay.scheduleTrace (some 0) [sampleEventA, sampleEventB] 0).length =
        ([sampleEventA, sampleEventB] : List JSVal).length ∧
      (∀ i, i < ([sampleEventA, sampleEventB] : List JSVal).length →
        (EventReplay.scheduleTrace (some 0) [sampleEventA, sampleEventB] 0).get? i =
          some ((if i = 0
                 then ((([sampleEventA, sampleEventB] : List JSVal).getD 0 .vUndefined).timestampF).asNum
                 else JSNum.sub ((([sampleEventA, sampleEventB] : List JSVal).getD i .vUndefined).timestampF).asNum
                   ((([sampleEventA, sampleEventB] : List JSVal).getD (i - 1) .vUndefined).timestampF).asNum),
                ([sampleEventA, sampleEventB] : List JSVal).getD i .vUndefined))) :=
  ⟨by decide, by decide, replay_delay_schedule [sampleEventA, sampleEventB] 0 (by decide) (by decide)⟩

theorem validateEventsAux_first_error (es : List JSVal) :
    ∀ (k i : ℕ) (m : String), i < es.length →
      (∀ j, j < i → EventReplay.validateEventAt (k + j) (es.getD j .vUndefined) = .ok ()) →
      EventReplay.validateEventAt (k + i) (es.getD i .vUndefined) = .error m →
      EventReplay.validateEventsAux k es = .error m := by
  induction es with
  | nil =>
    intro k i m hi _ _
    simp at hi
  | cons e rest ih =>
    intro k i m hi hpre hbad
    cases i with
    | zero =>
      simp only [List.getD_cons_zero, Nat.add_zero] at hbad
      unfold EventReplay.validateEventsAux
      rw [hbad]
    | succ i' =>
      have h0 : EventReplay.validateEventAt k e = .ok () := by
        have := hpre 0 (by omega)
        simpa using this
      unfold EventReplay.validateEventsAux
      rw [h0]
      refine ih (k + 1) i' m (by simpa using hi) ?_ ?_
      · intro j hj
        have := hpre (j + 1) (by omega)
        have harith : k + (j + 1) = k + 1 + j := by omega
        simpa [harith] using this
      · have harith : k + (i' + 1) = k + 1 + i' := by omega
        simpa [harith] using hbad

/-- C3 (amended): `replay(events)` checks, for each element in index
order: non-null object; `key` and `code` of string type and non-empty
after trimming; `duration` a number with `duration < 0` false under JS
comparison (`NaN` and `+Infinity` are accepted — there is no finiteness
check); `timestamp` likewise a number with `timestamp < 0` false.  The
whole array is validated before anything is scheduled, so the first
invalid element makes the call throw that element's `ValidationError`
(its message names the index and the offending field), the session is
exactly as before the call, no emission is scheduled, and `isReplaying()`
remains `false`. -/
theorem replay_rejects_first_invalid (st : EventReplay) (es : List JSVal)
    (now : ℚ) (tid : ℕ) (i : ℕ) (m : String)
    (hIdle : st.session.isReplaying = false)
    (hi : i < es.length)
    (hpre : ∀ j, j < i → EventReplay.validateEventAt j (es.getD j .vUndefined) = .ok ())
    (hbad : EventReplay.validateEventAt i (es.getD i .vUndefined) = .error m) :
    EventReplay.replay st (.arrayArg es) now tid = (.error m, st) ∧
    (EventReplay.replay st (.arrayArg es) now tid).2.session.isReplaying = false := by
  have hv : EventReplay.validateEvents es = .error m := by
    refine validateEventsAux_first_error es 0 i m hi ?_ ?_
    · intro j hj
      simpa using hpre j hj
    · simpa using hbad
  have hout : EventReplay.replay st (.arrayArg es) now tid = (.error m, st) := by
    unfold EventReplay.replay
    simp [hIdle, hv]
  exact ⟨hout, by rw [hout]; exact hIdle⟩

theorem replay_rejects_first_invalid_witness :
    mkEventReplay.session.isReplaying = false ∧
    0 < ([JSVal.vNull] : List JSVal).length ∧
    EventReplay.validateEventAt 0 (([JSVal.vNull] : List JSVal).getD 0 .vUndefined) =
      .error "Event at index 0 is not a valid object" ∧
    EventReplay.replay mkEventReplay (.arrayArg [JSVal.vNull]) 0 1 =
      (.error "Event at index 0 is not a valid object", mkEventReplay) :=
  ⟨rfl, by decide, by decide,
    (replay_rejects_first_invalid mkEventReplay [JSVal.vNull] 0 1 0 _ rfl (by decide)
      (fun j hj => absurd hj (by omega)) (by decide)).1⟩

/-- A syntactically well-typed event whose `duration` is `+Infinity`. -/
def infDurationEvent : JSVal :=
  .vObj (.vStr "a") (.vStr "KeyA") (.vNum .inf) (.vNum (.num 0))

/-- C3 (counterexample to the claim as stated): the claim says an element
whose `duration` is not a *finite* number ≥ 0 is invalid and makes
`replay` throw a `ValidationError`, but the guard
`typeof duration !== 'number' || duration < 0` accepts `Infinity`
(`Infinity < 0` is `false`), so `replay([{key:'a',code:'KeyA',
duration:Infinity,timestamp:0}])` validates, throws nothing, and starts a
session (`isReplaying()` becomes `true`). -/
theorem replay_accepts_infinite_duration :
    EventReplay.validateEvents [infDurationEvent] = .ok () ∧
    EventReplay.replay mkEventReplay (.arrayArg [infDurationEvent]) 0 1 =
      (.ok (), ⟨⟨true, 0, some 0, [1]⟩, []⟩) := by
  constructor <;> decide

theorem validateEvent_obj_ok (k c : String) (d t : JSNum) :
    EventStore.validateEvent (.vObj (.vStr k) (.vStr c) (.vNum d) (.vNum t)) = .ok () ↔
      (k.length ≠ 0 ∧ c.length ≠ 0 ∧ JSNum.lt d (.num 0) = false ∧
        JSNum.le t (.num 0) = false) := by
  unfold EventStore.validateEvent
  simp only [JSVal.truthy, JSVal.jsTypeof, JSVal.keyF, JSVal.codeF, JSVal.durationF,
    JSVal.timestampF, JSVal.asStr, JSVal.asNum, bne_self_eq_false, Bool.not_true,
    Bool.false_or, Bool.or_false]
  split_ifs <;> simp_all

/-- An event whose `key` is the capture normalization of the Space key
(the single-space string) and whose other fields are arbitrary. -/
def spaceEvent (code : String) (d t : JSNum) : JSVal :=
  .vObj (.vStr " ") (.vStr code) (.vNum d) (.vNum t)

theorem validateEventsAux_mem_error (es : List JSVal) :
    ∀ (k : ℕ) (e : JSVal), e ∈ es →
      (∀ idx, ∃ m, EventReplay.validateEventAt idx e = .error m) →
      ∃ m, EventReplay.validateEventsAux k es = .error m := by
  induction es with
  | nil =>
    intro k e hmem _
    simp at hmem
  | cons a rest ih =>
    intro k e hmem hbad
    unfold EventReplay.validateEventsAux
    cases hva : EventReplay.validateEventAt k a with
    | error m => exact ⟨m, rfl⟩
    | ok u =>
      cases u
      rcases List.mem_cons.mp hmem with he | he
      · subst he
        obtain ⟨m, hm⟩ := hbad k
        rw [hva] at hm
        simp at hm
      · exact ih (k + 1) e he hbad

/-- C5: capture normalizes the Space key to the single-space string, the
store accepts any such event whose `code`, `duration` and `timestamp` pass
its insert validation (the key check is only `length === 0`), yet replay's
validator rejects the event at whatever index it sits (its key is empty
after trimming), so `replay` of any array containing it — in particular
any recorded session with a Space press — throws a `ValidationError` and
starts nothing. -/
theorem space_key_round_trip (code : String) (d t : JSNum) (store : EventStore)
    (hstore : EventStore.validateEvent (spaceEvent code d t) = .ok ()) :
    (∀ k, normalizeKeyIdentifier k "Space" = " ") ∧
    (∃ s', EventStore.addEvent store (spaceEvent code d t) = .ok s') ∧
    (∀ idx, EventReplay.validateEventAt idx (spaceEvent code d t) =
      .error ("Event at index " ++ toString idx ++ " has empty 'key' property")) ∧
    (∀ es, spaceEvent code d t ∈ es →
      ∃ m, EventReplay.validateEvents es = .error m) ∧
    (∀ (st : EventReplay) (now : ℚ) (tid : ℕ), st.session.isReplaying = false →
      ∀ es, spaceEvent code d t ∈ es →
        ∃ m, EventReplay.replay st (.arrayArg es) now tid = (.error m, st)) := by
  obtain ⟨-, hcode, hd, ht⟩ := (validateEvent_obj_ok " " code d t).mp hstore
  have hlt : JSNum.lt t (.num 0) = false := by
    cases hb : JSNum.lt t (.num 0)
    · rfl
    · rw [JSNum.le_of_lt t (.num 0) hb] at ht
      simp at ht
  have hbadAt : ∀ idx, EventReplay.validateEventAt idx (spaceEvent code d t) =
      .error ("Event at index " ++ toString idx ++ " has empty 'key' property") := by
    intro idx
    unfold EventReplay.validateEventAt
    simp [spaceEvent, JSVal.truthy, JSVal.jsTypeof, JSVal.keyF, JSVal.codeF,
      JSVal.durationF, JSVal.timestampF, JSVal.asStr, JSVal.asNum, hd, hlt,
      jsTrim]
  have hmemErr : ∀ es, spaceEvent code d t ∈ es →
      ∃ m, EventReplay.validateEvents es = .error m := by
    intro es hmem
    exact validateEventsAux_mem_error es 0 (spaceEvent code d t) hmem
      (fun idx => ⟨_, hbadAt idx⟩)
  refine ⟨fun k => rfl, ?_, hbadAt, hmemErr, ?_⟩
  · unfold EventStore.addEvent
    rw [hstore]
    by_cases hlen : (store.events ++ [spaceEvent code d t]).length > store.maxEvents
    · refine ⟨{ store with events := (store.events ++ [spaceEvent code d t]).tail }, ?_⟩
      simp only [hlen, if_pos]
    · refine ⟨{ store with events := store.events ++ [spaceEvent code d t] }, ?_⟩
      simp only [hlen, if_neg, not_false_iff]
  · intro st now tid hIdle es hmem
    obtain ⟨m, hm⟩ := hmemErr es hmem
    refine ⟨m, ?_⟩
    unfold EventReplay.replay
    simp [hIdle, hm]

theorem space_key_round_trip_witness :
    EventStore.validateEvent (spaceEvent "Space" (.num 5) (.num 1)) = .ok () ∧
    (∀ k, normalizeKeyIdentifier k "Space" = " ") ∧
    (∃ s', EventStore.addEvent (mkEventStore 10000) (spaceEvent "Space" (.num 5) (.num 1)) =
      .ok s') ∧
    (∀ idx, EventReplay.validateEventAt idx (spaceEvent "Space" (.num 5) (.num 1)) =
      .error ("Event at index " ++ toString idx ++ " has empty 'key' property")) ∧
    (∀ es, spaceEvent "Space" (.num 5) (.num 1) ∈ es →
      ∃ m, EventReplay.validateEvents es = .error m) ∧
    (∀ (st : EventReplay) (now : ℚ) (tid : ℕ), st.session.isReplaying = false →
      ∀ es, spaceEvent "Space" (.num 5) (.num 1) ∈ es →
        ∃ m, EventReplay.replay st (.arrayArg es) now tid = (.error m, st)) :=
  ⟨by decide, space_key_round_trip "Space" (.num 5) (.num 1) (mkEventStore 10000) (by decide)⟩

/-- C7 (counterexample to the claim as stated): the claim characterizes
the inner rounding as round-half-away-from-zero "for every real x and
precision p", but `roundToPrecision` uses JS `Math.round` (ties toward
`+∞`): at `x = -1/20 = -0.05`, `p = 1`, the scaled value is `-0.5`;
`Math.round(-0.5) = 0` so the code yields `0`, while half-away-from-zero
yields `-1/10`.  On the same inputs a captured pair with
`downInstant = 1`, `upInstant = 19/20` emits duration `0`, not `-1/10`. -/
theorem roundToPrecision_ties_toward_posinf :
    roundToPrecision (-(1 / 20) : ℚ) 1 = 0 ∧
    roundToPrecisionSpec (-(1 / 20) : ℚ) 1 = -(1 / 10) ∧
    roundToPrecision (-(1 / 20) : ℚ) 1 ≠ roundToPrecisionSpec (-(1 / 20) : ℚ) 1 ∧
    (EventCapture.handleKeyUp
        ⟨true, [("a-KeyA", 1)], true, 1, 0⟩ "a" "KeyA" (19 / 20)).2 =
      some { key := "a", duration := 0, timestamp := 1, code := "KeyA" } := by
  have h1 : roundToPrecision (-(1 / 20) : ℚ) 1 = 0 := by
    simp only [roundToPrecision, jsMathRound]
    norm_num
  have h2 : roundToPrecisionSpec (-(1 / 20) : ℚ) 1 = -(1 / 10) := by
    simp only [roundToPrecisionSpec]
    norm_num
  refine ⟨h1, h2, by rw [h1, h2]; norm_num, ?_⟩
  unfold EventCapture.handleKeyUp
  have hget : mapGet [("a-KeyA", (1 : ℚ))]
      (normalizeKeyIdentifier "a" "KeyA" ++ "-" ++ "KeyA") = some 1 := by decide
  simp only [Bool.not_true, Bool.false_eq_true, if_false, hget]
  have hd : roundToPrecision (19 / 20 - 1 : ℚ) 1 = 0 := by
    have : (19 / 20 - 1 : ℚ) = -(1 / 20) := by norm_num
    rw [this, h1]
  have ht : roundToPrecision (1 : ℚ) 1 = 1 := by
    simp only [roundToPrecision, jsMathRound]
    norm_num
  have hn : normalizeKeyIdentifier "a" "KeyA" = "a" := by decide
  simp [hd, ht, hn]

/-- C7 (amended): for every captured key pair the emitted event's
`duration` is `round(upInstant - downInstant, p)` and its `timestamp` is
`round(downInstant - sessionStartInstant, p)`, where
`round(x, p) = Math.round(x * 10^p) / 10^p` and the inner rounding is JS
`Math.round` — round-half-up, ties toward `+∞` — which coincides with
round-half-away-from-zero for every `x ≥ 0` (in particular on the
nonnegative differences the capture path produces), though not for every
real `x`. -/
theorem capture_rounding (c : EventCaptureState) (key code : String) (now down : ℚ)
    (hcap : c.isCapturing = true)
    (hdown : mapGet c.keyDownTimes
      (normalizeKeyIdentifier key code ++ "-" ++ code) = some down) :
    (EventCapture.handleKeyUp c key code now).2 =
      some { key := normalizeKeyIdentifier key code,
             duration := roundToPrecision (now - down) c.timestampPrecision,
             timestamp := roundToPrecision (down - c.sessionStartTime) c.timestampPrecision,
             code := code } ∧
    (∀ (x : ℚ) (p : ℕ), 0 ≤ x → roundToPrecision x p = roundToPrecisionSpec x p) := by
  constructor
  · unfold EventCapture.handleKeyUp
    rw [hcap]
    simp only [Bool.not_true, Bool.false_eq_true, if_false]
    rw [hdown]
  · intro x p hx
    have hsc : (0 : ℚ) ≤ x * 10 ^ p := by positivity
    simp [roundToPrecision, roundToPrecisionSpec, jsMathRound, hsc]

theorem capture_rounding_witness :
    (⟨true, [("a-KeyA", 2)], true, 3, 0⟩ : EventCaptureState).isCapturing = true ∧
    mapGet (⟨true, [("a-KeyA", 2)], true, 3, 0⟩ : EventCaptureState).keyDownTimes
      (normalizeKeyIdentifier "a" "KeyA" ++ "-" ++ "KeyA") = some 2 ∧
    ((EventCapture.handleKeyUp ⟨true, [("a-KeyA", 2)], true, 3, 0⟩ "a" "KeyA" 5).2 =
      some { key := normalizeKeyIdentifier "a" "KeyA",
             duration := roundToPrecision (5 - 2) 3,
             timestamp := roundToPrecision (2 - 0) 3,
             code := "KeyA" } ∧
     (∀ (x : ℚ) (p : ℕ), 0 ≤ x → roundToPrecision x p = roundToPrecisionSpec x p)) :=
  ⟨rfl, by decide, capture_rounding ⟨true, [("a-KeyA", 2)], true, 3, 0⟩ "a" "KeyA" 5 2
    rfl (by decide)⟩
